import Mathlib

/-!
Verification of the WEBCLI backend core (session supervision, output
classification, broadcast hub) against its design specification.

Shallow embedding conventions:
* strings are modelled as `List Char`;
* the JavaScript regular expressions of `src/backend/src/parser.ts` are
  embedded as executable pattern matchers (the patterns use only literals,
  `\s+`, `\s*`, `\d+` and one trailing `(.+)` capture, so greedy matching
  with the single backtracking case of `\s+` before a trailing `(.+)` is
  implemented exactly);
* stateful code (session lifecycle, registry, hub) is embedded as explicit
  step functions over state types, with timers modelled by an explicit
  millisecond clock;
* identifiers (session ids, connection handles) are modelled as opaque `Nat`.
-/

/-- Convert a string literal to its character list. -/
def cs (s : String) : List Char := s.toList

/-- The terminal escape character (code point 27). -/
def escC : Char := Char.ofNat 27

/-- The apostrophe character (code point 39). -/
def apos : Char := Char.ofNat 39

/-- JavaScript `\s` character class (WhiteSpace plus LineTerminator);
this is also the set removed by `String.prototype.trim`. -/
def isJsSpace (c : Char) : Bool :=
  let n := c.toNat
  n = 9 || n = 10 || n = 11 || n = 12 || n = 13 || n = 32 ||
  n = 160 || n = 0x1680 || (0x2000 ≤ n && n ≤ 0x200A) ||
  n = 0x2028 || n = 0x2029 || n = 0x202F || n = 0x205F || n = 0x3000 || n = 0xFEFF

/-- JavaScript line terminators (the characters `.` does not match). -/
def isLineTerm (c : Char) : Bool :=
  let n := c.toNat
  n = 10 || n = 13 || n = 0x2028 || n = 0x2029

/-- Character class of the regex `.` (any character except a line terminator;
the regexes in the source do not use the dotAll flag). -/
def isDotC (c : Char) : Bool := !isLineTerm c

/-- ASCII letter, the final byte class `[a-zA-Z]` of the ANSI escape regex. -/
def isAsciiLetter (c : Char) : Bool :=
  let n := c.toNat
  (65 ≤ n && n ≤ 90) || (97 ≤ n && n ≤ 122)

/-- ASCII lower-casing.  The source regexes carry the `i` flag without the
`u` flag, and all their literal characters are ASCII, so ECMAScript
canonicalisation coincides with ASCII case folding on them (a non-ASCII
input character never canonicalises to an ASCII character). -/
def lowC (c : Char) : Char :=
  if 65 ≤ c.toNat && c.toNat ≤ 90 then Char.ofNat (c.toNat + 32) else c

/-- Case-insensitive character comparison used for pattern literals. -/
def ciEq (a c : Char) : Bool := lowC a = lowC c

/-- Parameter-and-final-byte suffix of a CSI sequence: consumes `[0-9;]*`
greedily and then one `[a-zA-Z]`, returning the remainder.  The two classes
are disjoint, so the greedy scan is exact. -/
def csiParams : List Char → Option (List Char)
  | [] => none
  | c :: rest =>
    if c.isDigit || c = ';' then csiParams rest
    else if isAsciiLetter c then some rest
    else none

/-- Recognise `'['` followed by a CSI parameter/final suffix (everything of
the regex `\x1b\[[0-9;]*[a-zA-Z]` after the escape character). -/
def csiAfter (l : List Char) : Option (List Char) :=
  match l with
  | c :: rest => if c = '[' then csiParams rest else none
  | [] => none

/-- Fuelled worker for `stripAnsi`.  Each successful match consumes at least
three characters, so fuel equal to the input length never runs out; the
fuel only serves to make the recursion structural. -/
def stripAnsiF : Nat → List Char → List Char
  | 0, rest => rest
  | _ + 1, [] => []
  | fuel + 1, c :: rest =>
    if c = escC then
      match csiAfter rest with
      | some rest2 => stripAnsiF fuel rest2
      | none => c :: stripAnsiF fuel rest
    else c :: stripAnsiF fuel rest

/-- `stripAnsi` of `parser.ts`: global replacement of the regex
`\x1b\[[0-9;]*[a-zA-Z]` by the empty string, scanning left to right and
continuing after each removed match. -/
def stripAnsi (text : List Char) : List Char := stripAnsiF text.length text

/-- Whether some suffix of the text begins with a CSI escape sequence,
i.e. whether the ANSI regex has a match in the text. -/
def hasCSI : List Char → Bool
  | [] => false
  | c :: rest => (c = escC && (csiAfter rest).isSome) || hasCSI rest

lemma stripAnsiF_of_hasCSI_false {fuel : Nat} {l : List Char}
    (h : hasCSI l = false) : stripAnsiF fuel l = l := by
  induction fuel generalizing l with
  | zero => rfl
  | succ fuel ih =>
    match l with
    | [] => rfl
    | c :: rest =>
      simp only [hasCSI, Bool.or_eq_false_iff, Bool.and_eq_false_iff] at h
      simp only [stripAnsiF]
      by_cases hc : c = escC
      · rcases h.1 with h1 | h1
        · exact absurd (by exact_mod_cast hc) (by simpa using h1)
        · have hnone : csiAfter rest = none := by
            cases hm : csiAfter rest with
            | none => rfl
            | some r => rw [hm] at h1; simp [Option.isSome] at h1
          simp [hc, hnone, ih h.2]
      · simp [hc, ih h.2]

/-- No CSI match implies `stripAnsi` is the identity. -/
lemma stripAnsi_of_hasCSI_false {l : List Char} (h : hasCSI l = false) :
    stripAnsi l = l := stripAnsiF_of_hasCSI_false h

/-- JavaScript `String.prototype.trim`: drop leading and trailing `\s`. -/
def jsTrim (l : List Char) : List Char :=
  ((l.dropWhile isJsSpace).reverse.dropWhile isJsSpace).reverse

/-- JavaScript `String.prototype.includes`: substring containment. -/
def containsSub (needle : List Char) : List Char → Bool
  | [] => needle.isPrefixOf []
  | c :: rest => needle.isPrefixOf (c :: rest) || containsSub needle rest

/-- JavaScript `text.split(newline)`: the list of newline-separated segments,
always non-empty, keeping empty segments. -/
def splitNL : List Char → List (List Char)
  | [] => [[]]
  | c :: rest =>
    if c = '\n' then [] :: splitNL rest
    else
      match splitNL rest with
      | [] => [[c]]
      | l :: ls => (c :: l) :: ls

/-- Decomposition of a text into its complete (newline-terminated) lines and
its trailing unterminated fragment.  This is `splitNL` with the last segment
separated out (`lines.pop()` in `handleOutput`). -/
def splitCL : List Char → List (List Char) × List Char
  | [] => ([], [])
  | c :: rest =>
    if c = '\n' then ([] :: (splitCL rest).1, (splitCL rest).2)
    else
      match (splitCL rest).1 with
      | [] => ([], c :: (splitCL rest).2)
      | l :: ls => ((c :: l) :: ls, (splitCL rest).2)

/-- JavaScript `lines.join(newline)`. -/
def intercalNL : List (List Char) → List Char
  | [] => []
  | [l] => l
  | l :: ls => l ++ '\n' :: intercalNL ls

lemma splitNL_ne_nil (l : List Char) : splitNL l ≠ [] := by
  match l with
  | [] => simp [splitNL]
  | c :: rest =>
    simp only [splitNL]
    by_cases hc : c = '\n'
    · simp [hc]
    · simp only [hc, if_false]
      cases splitNL rest <;> simp

lemma splitNL_eq_splitCL (l : List Char) :
    splitNL l = (splitCL l).1 ++ [(splitCL l).2] := by
  induction l with
  | nil => simp [splitNL, splitCL]
  | cons c rest ih =>
    simp only [splitNL, splitCL]
    by_cases hc : c = '\n'
    · simp [hc, ih]
    · simp only [hc, if_false]
      cases h : (splitCL rest).1 with
      | nil => rw [h] at ih; simp [ih]
      | cons l ls => rw [h] at ih; simp [ih]

/-- Prepend a pending fragment to a line decomposition: the fragment merges
into the first complete line, or into the fragment if there is none. -/
def mergeCL (fa : List Char) (p : List (List Char) × List Char) :
    List (List Char) × List Char :=
  match p.1 with
  | [] => ([], fa ++ p.2)
  | l :: ls => ((fa ++ l) :: ls, p.2)

lemma splitCL_append (a b : List Char) :
    splitCL (a ++ b) =
      ((splitCL a).1 ++ (mergeCL (splitCL a).2 (splitCL b)).1,
        (mergeCL (splitCL a).2 (splitCL b)).2) := by
  induction a with
  | nil =>
    rcases hb : splitCL b with ⟨Cb, fb⟩
    simp only [List.nil_append, hb, splitCL, mergeCL]
    cases Cb <;> simp
  | cons c a ih =>
    rcases hb : splitCL b with ⟨Cb, fb⟩
    rcases ha : splitCL a with ⟨Ca, fa⟩
    rw [hb, ha] at ih
    simp only [List.cons_append, splitCL, ih, ha, hb, mergeCL]
    by_cases hc : c = '\n'
    · simp only [hc, if_true]
      cases Ca <;> cases Cb <;>
        simp only [mergeCL, List.nil_append, List.cons_append] at ih ⊢ <;>
        simp [ih]
    · simp only [hc, if_false]
      cases Ca <;> cases Cb <;>
        simp only [mergeCL, List.nil_append, List.cons_append] at ih ⊢ <;>
        simp [ih]

lemma splitCL_no_nl (l : List Char) :
    (∀ x ∈ (splitCL l).1, '\n' ∉ x) ∧ '\n' ∉ (splitCL l).2 := by
  induction l with
  | nil => simp [splitCL]
  | cons c rest ih =>
    simp only [splitCL]
    by_cases hc : c = '\n'
    · simp only [hc, if_true]
      constructor
      · intro x hx
        rcases List.mem_cons.1 hx with h | h
        · simp [h]
        · exact ih.1 x h
      · exact ih.2
    · simp only [hc, if_false]
      cases h : (splitCL rest).1 with
      | nil =>
        refine ⟨by simp, ?_⟩
        simp only [List.mem_cons]
        rintro (h1 | h1)
        · exact hc h1.symm
        · exact ih.2 h1
      | cons l ls =>
        constructor
        · intro x hx
          rcases List.mem_cons.1 hx with h1 | h1
          · subst h1
            simp only [List.mem_cons]
            rintro (h2 | h2)
            · exact hc h2.symm
            · exact ih.1 l (by simp [h]) h2
          · exact ih.1 x (by simp [h, h1])
        · exact ih.2

lemma splitCL_of_no_nl {l : List Char} (h : '\n' ∉ l) :
    splitCL l = ([], l) := by
  induction l with
  | nil => simp [splitCL]
  | cons c rest ih =>
    simp only [List.mem_cons, not_or] at h
    have hc : ¬ c = '\n' := fun hh => h.1 hh.symm
    simp [splitCL, hc, ih h.2]

lemma splitNL_of_no_nl {l : List Char} (h : '\n' ∉ l) :
    splitNL l = [l] := by
  rw [splitNL_eq_splitCL, splitCL_of_no_nl h]
  simp

lemma splitNL_append_no_nl {a : List Char} (b : List Char) (h : '\n' ∉ a) :
    splitNL (a ++ b) =
      match splitNL b with
      | [] => [a]
      | r :: rs => (a ++ r) :: rs := by
  induction a with
  | nil =>
    cases hb : splitNL b with
    | nil => exact absurd hb (splitNL_ne_nil b)
    | cons r rs => simp [hb]
  | cons c a ih =>
    simp only [List.mem_cons, not_or] at h
    have hc : ¬ c = '\n' := fun hh => h.1 hh.symm
    simp only [List.cons_append, splitNL, hc, if_false, List.append_eq]
    rw [ih h.2]
    cases hb : splitNL b with
    | nil => exact absurd hb (splitNL_ne_nil b)
    | cons r rs => simp

lemma splitNL_intercalNL {L : List (List Char)} (hne : L ≠ [])
    (hnl : ∀ l ∈ L, '\n' ∉ l) : splitNL (intercalNL L) = L := by
  induction L with
  | nil => exact absurd rfl hne
  | cons l ls ih =>
    cases ls with
    | nil => exact splitNL_of_no_nl (hnl l (by simp))
    | cons l2 ls2 =>
      have hstep : intercalNL (l :: l2 :: ls2) = l ++ '\n' :: intercalNL (l2 :: ls2) := rfl
      rw [hstep, splitNL_append_no_nl _ (hnl l (by simp))]
      have : splitNL ('\n' :: intercalNL (l2 :: ls2)) = [] :: splitNL (intercalNL (l2 :: ls2)) := by
        simp [splitNL]
      rw [this, ih (by simp) (fun x hx => hnl x (by simp [hx]))]
      simp

/-- Pattern items of the source regexes other than the trailing capture:
a (case-insensitive) literal, `\s+`, `\s*`, or `\d+`.  In every regex of
`parser.ts` a quantified class is followed by a character outside that
class, so greedy matching without backtracking is exact for these items. -/
inductive Pit where
  | lit (s : List Char)
  | wsPlus
  | wsStar
  | digPlus

/-- A source regex: optional `^` anchor, a sequence of items, and an
optional trailing `\s+(.+)` whose `(.+)` is capture group 1. -/
structure Pat where
  anchored : Bool
  items : List Pit
  capTail : Bool

/-- Case-insensitive literal prefix match, returning the remainder. -/
def litPref : List Char → List Char → Option (List Char)
  | [], rest => some rest
  | _ :: _, [] => none
  | a :: as, c :: rest => if ciEq a c then litPref as rest else none

/-- Match the item sequence against a prefix of the text, returning the
remainder. -/
def matchPits : List Pit → List Char → Option (List Char)
  | [], rest => some rest
  | Pit.lit s :: ps, rest =>
    match litPref s rest with
    | some rest2 => matchPits ps rest2
    | none => none
  | Pit.wsPlus :: ps, rest =>
    let k := (rest.takeWhile isJsSpace).length
    if k = 0 then none else matchPits ps (rest.drop k)
  | Pit.wsStar :: ps, rest =>
    matchPits ps (rest.drop (rest.takeWhile isJsSpace).length)
  | Pit.digPlus :: ps, rest =>
    let k := (rest.takeWhile Char.isDigit).length
    if k = 0 then none else matchPits ps (rest.drop k)

/-- Index of the last `.`-matchable character in a list, if any. -/
def findLastDot : List Char → Option Nat
  | [] => none
  | c :: rest =>
    match findLastDot rest with
    | some j => some (j + 1)
    | none => if isDotC c then some 0 else none

/-- Match the trailing `\s+(.+)` of a capture pattern, returning the capture.
The greedy `\s+` takes the maximal whitespace run; if nothing is left for
`(.+)`, backtracking hands characters back to `(.+)` one at a time (so the
match chooses the longest whitespace run that still leaves a `.` character),
keeping at least one whitespace character. -/
def wsDotTail (rest : List Char) : Option (List Char) :=
  let k := (rest.takeWhile isJsSpace).length
  if k = 0 then none
  else
    match rest.drop k with
    | c :: more => some ((c :: more).takeWhile isDotC)
    | [] =>
      match findLastDot (rest.drop 1) with
      | some j => some ((rest.drop (1 + j)).takeWhile isDotC)
      | none => none

/-- Attempt to match a pattern at the current position; `some r` is a match
whose group 1 is `r` (`none` inside when the pattern has no group). -/
def matchAt (p : Pat) (l : List Char) : Option (Option (List Char)) :=
  match matchPits p.items l with
  | none => none
  | some rest =>
    if p.capTail then
      match wsDotTail rest with
      | some cap => some (some cap)
      | none => none
    else some none

/-- Leftmost-match search over all start positions, as in JavaScript
`String.prototype.match` for an unanchored regex. -/
def searchFrom (p : Pat) : List Char → Option (Option (List Char))
  | [] => matchAt p []
  | c :: rest =>
    match matchAt p (c :: rest) with
    | some r => some r
    | none => searchFrom p rest

/-- `text.match(pattern)` restricted to the success flag and group 1. -/
def matchCap (p : Pat) (l : List Char) : Option (Option (List Char)) :=
  if p.anchored then matchAt p l else searchFrom p l

/-- `pattern.test(text)`. -/
def testPat (p : Pat) (l : List Char) : Bool := (matchCap p l).isSome

/-- An unanchored pattern of plain items (no capture). -/
def pat (ps : List Pit) : Pat := ⟨false, ps, false⟩

/-- An unanchored pattern of plain items followed by `\s+(.+)`. -/
def patCap (ps : List Pit) : Pat := ⟨false, ps, true⟩

/-- An anchored (`^`) pattern of plain items (no capture). -/
def patAnch (ps : List Pit) : Pat := ⟨true, ps, false⟩

/-- Literal item from a string. -/
def litS (s : String) : Pit := Pit.lit s.toList

/-- `PERMISSION_PATTERNS` of `parser.ts`, in source order. -/
def permPats : List Pat :=
  [pat [litS "Allow", .wsPlus, litS "this", .wsPlus, litS "action?"],
   pat [litS "Do", .wsPlus, litS "you", .wsPlus, litS "want", .wsPlus, litS "to",
        .wsPlus, litS "proceed?"],
   pat [litS "[y/n]"],
   pat [litS "(y/N)"],
   pat [litS "(Y/n)"],
   pat [litS "Press", .wsPlus, litS "y", .wsPlus, litS "to", .wsPlus, litS "confirm"],
   pat [litS "Approve?"]]

/-- `TOOL_START_PATTERNS` entry for Read. -/
def readStart : List Pat :=
  [patCap [litS "Reading"], pat [litS "Read", .wsPlus, litS "file"]]

/-- `TOOL_START_PATTERNS` entry for Write. -/
def writeStart : List Pat :=
  [patCap [litS "Writing"], pat [litS "Creating", .wsPlus, litS "file"],
   pat [litS "Write", .wsPlus, litS "file"]]

/-- `TOOL_START_PATTERNS` entry for Edit. -/
def editStart : List Pat :=
  [patCap [litS "Editing"], pat [litS "Edit", .wsPlus, litS "file"],
   patCap [litS "Updating"]]

/-- `TOOL_START_PATTERNS` entry for Bash. -/
def bashStart : List Pat :=
  [patCap [litS "Running"], patCap [litS "Executing"], patCap [litS "$"]]

/-- `TOOL_START_PATTERNS` entry for Glob. -/
def globStart : List Pat :=
  [pat [litS "Searching", .wsPlus, litS "for", .wsPlus, litS "files"],
   pat [litS "Finding", .wsPlus, litS "files"], pat [litS "Glob"]]

/-- `TOOL_START_PATTERNS` entry for Grep. -/
def grepStart : List Pat := [patCap [litS "Searching"], pat [litS "Grep"]]

/-- `TOOL_START_PATTERNS` entry for WebFetch. -/
def webFetchStart : List Pat := [patCap [litS "Fetching"], pat [litS "WebFetch"]]

/-- `TOOL_START_PATTERNS` entry for Task. -/
def taskStart : List Pat :=
  [pat [litS "Launching", .wsPlus, litS "agent"], pat [litS "Task"]]

/-- `TOOL_START_PATTERNS` in `Object.entries` iteration order (string-keyed
record insertion order). -/
def toolStartTable : List (List Char × List Pat) :=
  [(cs "Read", readStart), (cs "Write", writeStart), (cs "Edit", editStart),
   (cs "Bash", bashStart), (cs "Glob", globStart), (cs "Grep", grepStart),
   (cs "WebFetch", webFetchStart), (cs "Task", taskStart)]

/-- `TOOL_END_PATTERNS` in iteration order. -/
def toolEndTable : List (List Char × List Pat) :=
  [(cs "Read",
    [pat [litS "Read", .wsPlus, .digPlus, .wsPlus, litS "lines"],
     pat [litS "File", .wsPlus, litS "read"]]),
   (cs "Write",
    [pat [litS "File", .wsPlus, litS "created"],
     pat [litS "File", .wsPlus, litS "written"],
     pat [litS "Wrote", .wsPlus, .digPlus, .wsPlus, litS "lines"]]),
   (cs "Edit",
    [pat [litS "File", .wsPlus, litS "edited"], patCap [litS "Updated"],
     pat [litS "Edit", .wsPlus, litS "successful"]]),
   (cs "Bash",
    [pat [litS "Command", .wsPlus, litS "completed"],
     pat [litS "Exit", .wsPlus, litS "code"]])]

/-- `THINKING_PATTERNS`.  The fourth source regex has the alternation
`I('m| am)` whose group is never read; it is expanded here into its two
alternatives, which is test-equivalent. -/
def thinkingPats : List Pat :=
  [patAnch [.wsStar, litS "[thinking]"],
   patAnch [.wsStar, litS "Thinking..."],
   patAnch [.wsStar, litS "Let me think"],
   patAnch [.wsStar, Pit.lit ['I', apos, 'm'], .wsPlus, litS "thinking"],
   patAnch [.wsStar, litS "I am", .wsPlus, litS "thinking"]]

/-- `ToolMatch` of `types.ts` (the constant `status` field is carried by the
event constructors instead). -/
structure ToolMatch where
  tool : List Char
  content : List Char
deriving DecidableEq

/-- `PermissionMatch` of `types.ts` (the constant `type: confirm` field is
omitted). -/
structure PermissionMatch where
  request : List Char
deriving DecidableEq

/-- `match[1] || cleanText.trim()`: group 1 when present and non-empty,
otherwise the trimmed clean text. -/
def toolContent (r : Option (List Char)) (clean : List Char) : List Char :=
  match r with
  | some cap => if cap = [] then jsTrim clean else cap
  | none => jsTrim clean

/-- First matching pattern of a per-tool list, with its group 1. -/
def firstPatMatch : List Pat → List Char → Option (Option (List Char))
  | [], _ => none
  | p :: ps, clean =>
    match matchCap p clean with
    | some r => some r
    | none => firstPatMatch ps clean

/-- Scan a tool table in order; first matching tool and pattern wins. -/
def scanTools : List (List Char × List Pat) → List Char → Option ToolMatch
  | [], _ => none
  | (tool, ps) :: rest, clean =>
    match firstPatMatch ps clean with
    | some r => some ⟨tool, toolContent r clean⟩
    | none => scanTools rest clean

/-- `detectToolStart` of `parser.ts`. -/
def detectToolStart (text : List Char) : Option ToolMatch :=
  scanTools toolStartTable (stripAnsi text)

/-- `detectToolEnd` of `parser.ts`. -/
def detectToolEnd (text : List Char) : Option ToolMatch :=
  scanTools toolEndTable (stripAnsi text)

/-- Scan the permission patterns in order. -/
def scanPerm : List Pat → List Char → Option PermissionMatch
  | [], _ => none
  | p :: ps, clean =>
    if testPat p clean then some ⟨jsTrim clean⟩ else scanPerm ps clean

/-- `detectPermission` of `parser.ts`. -/
def detectPermission (text : List Char) : Option PermissionMatch :=
  scanPerm permPats (stripAnsi text)

/-- The raw dim escape code checked by `detectThinking`. -/
def dimCode : List Char := [escC, '[', '2', 'm']

/-- The raw italic escape code checked by `detectThinking`. -/
def italCode : List Char := [escC, '[', '3', 'm']

/-- `detectThinking` of `parser.ts`: thinking phrasings on the stripped
text, or raw dim/italic codes on the unstripped text. -/
def detectThinking (text : List Char) : Bool :=
  thinkingPats.any (fun p => testPat p (stripAnsi text)) ||
  (containsSub dimCode text || containsSub italCode text)

/-- `ParsedOutput` of `parser.ts` as a tagged variant: the `type` field
becomes the constructor, `content`/`tool`/`request` become arguments. -/
inductive POut where
  | text (content : List Char)
  | thinking (content : List Char)
  | toolStart (tool content : List Char)
  | toolEnd (tool content : List Char)
  | permission (content request : List Char)
deriving DecidableEq

/-- The per-line classification body of `parseOutput` (permission first,
then tool start, tool end, thinking, plain text). -/
def classifyLine (line : List Char) : POut :=
  match detectPermission line with
  | some pm => POut.permission line pm.request
  | none =>
    match detectToolStart line with
    | some tm => POut.toolStart tm.tool tm.content
    | none =>
      match detectToolEnd line with
      | some tm => POut.toolEnd tm.tool tm.content
      | none =>
        if detectThinking line then POut.thinking (stripAnsi line)
        else POut.text (stripAnsi line)

/-- The events one line contributes: none when the line trims to empty,
otherwise its classification. -/
def lineEvents (line : List Char) : List POut :=
  if jsTrim line = [] then [] else [classifyLine line]

/-- `parseOutput` of `parser.ts`: split on newlines, skip blank lines,
classify each remaining line in order. -/
def parseOutput (text : List Char) : List POut :=
  (splitNL text).flatMap lineEvents

/-- `ServerMessage` of `types.ts` as a tagged variant (the fields used by
the core; session identifiers are opaque `Nat`). -/
inductive SMsg where
  | output (sessionId : Nat) (content : List Char)
  | thinkingMsg (sessionId : Nat) (content : List Char)
  | toolUse (sessionId : Nat) (tool : List Char) (isStart : Bool) (content : List Char)
  | permissionMsg (sessionId : Nat) (request content : List Char)
  | sessionStart (sessionId : Nat)
  | sessionEnd (sessionId : Nat) (exitCode : Int)
  | errorMsg (sessionId : Nat) (message : List Char)
  | connected
deriving DecidableEq

/-- `outputToMessages` of `parser.ts`. -/
def outputToMessages (sid : Nat) (parsed : List POut) : List SMsg :=
  parsed.map fun item =>
    match item with
    | POut.text c => SMsg.output sid c
    | POut.thinking c => SMsg.thinkingMsg sid c
    | POut.toolStart t c => SMsg.toolUse sid t true c
    | POut.toolEnd t c => SMsg.toolUse sid t false c
    | POut.permission content request => SMsg.permissionMsg sid request content

/-- The `content` field of a server message (empty for messages that have
none). -/
def msgContent : SMsg → List Char
  | SMsg.output _ c => c
  | SMsg.thinkingMsg _ c => c
  | SMsg.toolUse _ _ _ c => c
  | SMsg.permissionMsg _ _ c => c
  | _ => []

/-- `ClaudeSession.handleOutput`: append the chunk to the reassembly buffer,
split off all complete lines (the unterminated tail stays in the buffer),
classify them in order, and independently emit the stripped raw chunk when
it does not trim to empty.  Returns (new buffer, messages emitted on the
message stream, messages emitted on the rawOutput stream). -/
def handleOutput (sid : Nat) (buf data : List Char) :
    List Char × List SMsg × List SMsg :=
  let parts := splitNL (buf ++ data)
  let newBuf := parts.getLastD []
  let complete := parts.dropLast
  let msgs :=
    if complete.isEmpty then []
    else outputToMessages sid (parseOutput (intercalNL complete))
  let clean := stripAnsi data
  let raws := if jsTrim clean = [] then [] else [SMsg.output sid clean]
  (newBuf, msgs, raws)

/-- Feed a sequence of chunks through `handleOutput` starting from an empty
buffer, accumulating the classified line-event stream. -/
def processChunks (sid : Nat) (chunks : List (List Char)) :
    List Char × List SMsg :=
  chunks.foldl
    (fun st d =>
      let r := handleOutput sid st.1 d
      (r.1, st.2 ++ r.2.1))
    ([], [])

lemma dropLast_app_single {α : Type} (C : List α) (f : α) :
    (C ++ [f]).dropLast = C := by
  induction C with
  | nil => rfl
  | cons x xs ih =>
    cases xs with
    | nil => rfl
    | cons y ys => simpa using ih

lemma getLastD_app_single {α : Type} (C : List α) (f d : α) :
    (C ++ [f]).getLastD d = f := by
  induction C with
  | nil => rfl
  | cons x xs ih =>
    cases xs with
    | nil => rfl
    | cons y ys => simpa using ih

lemma parseOutput_intercalNL (sid : Nat) {C : List (List Char)}
    (hnl : ∀ l ∈ C, '\n' ∉ l) :
    (if C.isEmpty then []
     else outputToMessages sid (parseOutput (intercalNL C))) =
      outputToMessages sid (C.flatMap lineEvents) := by
  cases hC : C with
  | nil => simp [outputToMessages]
  | cons l ls =>
    rw [← hC]
    have hne : C ≠ [] := by simp [hC]
    simp only [List.isEmpty_eq_true, hne, if_false, parseOutput,
      splitNL_intercalNL hne hnl]

lemma handleOutput_eq (sid : Nat) (buf data : List Char) :
    handleOutput sid buf data =
      ((splitCL (buf ++ data)).2,
        outputToMessages sid ((splitCL (buf ++ data)).1.flatMap lineEvents),
        (handleOutput sid buf data).2.2) := by
  have hsplit := splitNL_eq_splitCL (buf ++ data)
  have hnl := (splitCL_no_nl (buf ++ data)).1
  simp only [handleOutput, hsplit, dropLast_app_single, getLastD_app_single]
  rw [parseOutput_intercalNL sid hnl]

lemma flatMap_map_out (sid : Nat) (A B : List POut) :
    outputToMessages sid (A ++ B) =
      outputToMessages sid A ++ outputToMessages sid B := by
  simp [outputToMessages]

lemma processChunks_from (sid : Nat) (chunks : List (List Char))
    (buf : List Char) (acc : List SMsg) (hbuf : '\n' ∉ buf) :
    chunks.foldl
        (fun st d =>
          let r := handleOutput sid st.1 d
          (r.1, st.2 ++ r.2.1))
        (buf, acc) =
      ((splitCL (buf ++ chunks.flatten)).2,
        acc ++ outputToMessages sid
          ((splitCL (buf ++ chunks.flatten)).1.flatMap lineEvents)) := by
  induction chunks generalizing buf acc with
  | nil => simp [splitCL_of_no_nl hbuf, outputToMessages]
  | cons d ds ih =>
    simp only [List.foldl_cons]
    rw [show (let r := handleOutput sid buf d; ((r.1 : List Char), acc ++ r.2.1)) =
          ((splitCL (buf ++ d)).2,
            acc ++ outputToMessages sid ((splitCL (buf ++ d)).1.flatMap lineEvents))
        from by rw [handleOutput_eq]]
    rw [ih _ _ (splitCL_no_nl (buf ++ d)).2]
    have hassoc : buf ++ (d :: ds).flatten = (buf ++ d) ++ ds.flatten := by
      simp
    rw [hassoc, splitCL_append (buf ++ d) ds.flatten]
    have hfrag : splitCL ((splitCL (buf ++ d)).2 ++ ds.flatten) =
        mergeCL (splitCL (buf ++ d)).2 (splitCL ds.flatten) := by
      rw [splitCL_append, splitCL_of_no_nl (splitCL_no_nl (buf ++ d)).2]
      simp [mergeCL]
    rw [hfrag]
    simp [flatMap_map_out, List.flatMap_append]

lemma flatMap_lineEvents_all_text {C : List (List Char)}
    (h : ∀ l ∈ C, lineEvents l = [POut.text (stripAnsi l)]) :
    C.flatMap lineEvents = C.map (fun l => POut.text (stripAnsi l)) := by
  induction C with
  | nil => rfl
  | cons l ls ih =>
    simp only [List.flatMap_cons, List.map_cons, h l (by simp)]
    rw [ih (fun x hx => h x (by simp [hx]))]
    rfl

/-- C1: feeding raw chunks through `handleOutput` never drops bytes at a
chunk boundary — the trailing unterminated fragment of each chunk stays in
the reassembly buffer and is classified once a later chunk supplies its
terminator, so any chunking of the input yields exactly the line events of
the undivided input.  The concatenation of event contents, however, equals
the ANSI-stripped complete lines only when every complete line is non-blank
and classified as plain text: blank lines emit no event, tool events carry
the captured detail (or trimmed text) instead of the full line, and
permission events carry the raw line (amended from the original claim,
which asserted the content equality unconditionally). -/
theorem claim_c1 (sid : Nat) (chunks : List (List Char)) :
    processChunks sid chunks = processChunks sid [chunks.flatten] ∧
    ((∀ l ∈ (splitCL chunks.flatten).1,
        lineEvents l = [POut.text (stripAnsi l)]) →
      (processChunks sid chunks).2.map msgContent =
        (splitCL chunks.flatten).1.map stripAnsi) := by
  have h1 : processChunks sid chunks =
      ((splitCL chunks.flatten).2,
        outputToMessages sid ((splitCL chunks.flatten).1.flatMap lineEvents)) := by
    unfold processChunks
    rw [processChunks_from sid chunks [] [] (by simp)]
    simp
  have h2 : processChunks sid [chunks.flatten] =
      ((splitCL chunks.flatten).2,
        outputToMessages sid ((splitCL chunks.flatten).1.flatMap lineEvents)) := by
    unfold processChunks
    rw [processChunks_from sid [chunks.flatten] [] [] (by simp)]
    simp
  refine ⟨h1.trans h2.symm, fun hall => ?_⟩
  rw [h1, flatMap_lineEvents_all_text hall]
  simp [outputToMessages, msgContent, List.map_map, Function.comp]

/-- C1 counterexample to the claim as stated: the single chunk
`Reading foo` followed by a newline yields one ToolStart event whose
content is only the captured detail `foo`, so the concatenated event
contents differ from the ANSI-stripped complete line `Reading foo`. -/
theorem claim_c1_counterexample :
    ¬ (((processChunks 0 [cs "Reading foo\n"]).2.map msgContent).flatten =
        stripAnsi ((splitCL (List.flatten [cs "Reading foo\n"])).1.flatten)) := by
  decide

/-- C1 witness: a line split across three chunks is reassembled and, being
plain text, its event content is exactly the stripped line. -/
theorem claim_c1_witness :
    (∀ l ∈ (splitCL (List.flatten [cs "hel", cs "lo wo", cs "rld\nab"])).1,
        lineEvents l = [POut.text (stripAnsi l)]) ∧
    (processChunks 0 [cs "hel", cs "lo wo", cs "rld\nab"]).2.map msgContent =
      (splitCL (List.flatten [cs "hel", cs "lo wo", cs "rld\nab"])).1.map stripAnsi :=
  ⟨by decide, (claim_c1 0 [cs "hel", cs "lo wo", cs "rld\nab"]).2 (by decide)⟩

/-- C2 (amended): `stripAnsi` leaves any input containing no CSI escape
sequence unchanged (including non-ASCII text), and is therefore idempotent
on every input whose stripped form contains no CSI sequence.  Amended from
the original claim, which asserted idempotence for all inputs: a single
replacement pass can splice the characters surrounding a removed escape
sequence into a new escape sequence, so unrestricted idempotence fails. -/
theorem claim_c2 (x : List Char) :
    (hasCSI x = false → stripAnsi x = x) ∧
    (hasCSI (stripAnsi x) = false →
      stripAnsi (stripAnsi x) = stripAnsi x) :=
  ⟨fun h => stripAnsi_of_hasCSI_false h,
   fun h => stripAnsi_of_hasCSI_false h⟩

/-- C2 counterexample to idempotence as stated: stripping
`ESC ESC [ m [ m` removes the inner `ESC [ m` and leaves `ESC [ m`, which a
second strip removes entirely. -/
theorem claim_c2_counterexample :
    ¬ (stripAnsi (stripAnsi [escC, escC, '[', 'm', '[', 'm']) =
        stripAnsi [escC, escC, '[', 'm', '[', 'm']) := by
  decide

/-- C2 witness: a non-ASCII escape-free text is untouched and idempotent. -/
theorem claim_c2_witness :
    hasCSI (cs "héllo wörld") = false ∧
    stripAnsi (cs "héllo wörld") = cs "héllo wörld" ∧
    stripAnsi (stripAnsi (cs "héllo wörld")) = stripAnsi (cs "héllo wörld") :=
  ⟨by decide, (claim_c2 (cs "héllo wörld")).1 (by decide),
    (claim_c2 (cs "héllo wörld")).2 (by decide)⟩

lemma scanPerm_eq {ps : List Pat} {clean : List Char} {pm : PermissionMatch}
    (h : scanPerm ps clean = some pm) : pm = ⟨jsTrim clean⟩ := by
  induction ps with
  | nil => simp [scanPerm] at h
  | cons p ps ih =>
    simp only [scanPerm] at h
    by_cases ht : testPat p clean
    · simp [ht] at h
      exact h.symm
    · simp [ht] at h
      exact ih h

/-- C3: any line whose stripped text matches one of the permission-prompt
patterns is classified as a permission prompt, never as a tool start —
`parseOutput` checks permission first and the first matching rule wins. -/
theorem claim_c3 (line : List Char)
    (h1 : (detectPermission line).isSome = true)
    (h2 : (detectToolStart line).isSome = true)
    (h0 : '\n' ∉ line) :
    classifyLine line = POut.permission line (jsTrim (stripAnsi line)) ∧
    ∀ e ∈ parseOutput line,
      e = POut.permission line (jsTrim (stripAnsi line)) := by
  obtain ⟨pm, hpm⟩ := Option.isSome_iff_exists.1 h1
  have hval : pm = ⟨jsTrim (stripAnsi line)⟩ := scanPerm_eq hpm
  have hcls : classifyLine line = POut.permission line (jsTrim (stripAnsi line)) := by
    simp [classifyLine, hpm, hval]
  refine ⟨hcls, fun e he => ?_⟩
  rw [parseOutput, splitNL_of_no_nl h0] at he
  simp only [List.flatMap_cons, List.flatMap_nil, List.append_nil, lineEvents] at he
  by_cases hb : jsTrim line = []
  · simp [hb] at he
  · simp only [hb, if_false, List.mem_singleton] at he
    rw [he, hcls]

/-- C3 witness: a line matching both a permission pattern and the Bash
tool-start pattern is classified as a permission prompt. -/
theorem claim_c3_witness :
    ((detectPermission (cs "Running rm? [y/n]")).isSome = true ∧
      (detectToolStart (cs "Running rm? [y/n]")).isSome = true) ∧
    classifyLine (cs "Running rm? [y/n]") =
      POut.permission (cs "Running rm? [y/n]")
        (jsTrim (stripAnsi (cs "Running rm? [y/n]"))) :=
  ⟨⟨by decide, by decide⟩,
    (claim_c3 (cs "Running rm? [y/n]") (by decide) (by decide) (by decide)).1⟩

lemma firstPatMatch_none {ps : List Pat} {clean : List Char}
    (h : ∀ p ∈ ps, matchCap p clean = none) :
    firstPatMatch ps clean = none := by
  induction ps with
  | nil => rfl
  | cons p ps ih =>
    simp only [firstPatMatch, h p (by simp)]
    exact ih fun q hq => h q (by simp [hq])

lemma matchAt_noCap {p : Pat} (hcap : p.capTail = false) (l : List Char) :
    matchAt p l = none ∨ matchAt p l = some none := by
  unfold matchAt
  cases matchPits p.items l with
  | none => exact Or.inl rfl
  | some rest => exact Or.inr (by simp [hcap])

lemma searchFrom_noCap {p : Pat} (hcap : p.capTail = false) (l : List Char) :
    searchFrom p l = none ∨ searchFrom p l = some none := by
  induction l with
  | nil => exact matchAt_noCap hcap []
  | cons c rest ih =>
    simp only [searchFrom]
    rcases matchAt_noCap hcap (c :: rest) with h | h
    · rw [h]
      exact ih
    · rw [h]
      exact Or.inr rfl

lemma matchCap_noCap {p : Pat} (hcap : p.capTail = false) (l : List Char) :
    matchCap p l = none ∨ matchCap p l = some none := by
  unfold matchCap
  by_cases ha : p.anchored
  · simp only [ha, if_true]
    exact matchAt_noCap hcap l
  · simp only [ha, if_false]
    exact searchFrom_noCap hcap l

/-- C9 (amended): `detectToolStart` scans the tool table in the fixed order
Read, Write, Edit, Bash, Glob, Grep, WebFetch, Task, and within a tool in
pattern order, so a line whose stripped text matches Glob's
`Searching for files` pattern — which also matches Grep's `Searching (.+)`
pattern — is attributed to Glob, never Grep, provided no pattern of an
earlier tool (Read, Write, Edit, Bash) matches the line.  Amended from the
original claim, whose example omitted the earlier-tool proviso: a line
additionally matching an earlier tool's pattern is attributed to that
earlier tool. -/
theorem claim_c9 (line : List Char)
    (h1 : testPat (pat [litS "Searching", .wsPlus, litS "for", .wsPlus, litS "files"])
        (stripAnsi line) = true)
    (h2 : ∀ p ∈ readStart ++ writeStart ++ editStart ++ bashStart,
        matchCap p (stripAnsi line) = none) :
    detectToolStart line = some ⟨cs "Glob", jsTrim (stripAnsi line)⟩ := by
  have hr : firstPatMatch readStart (stripAnsi line) = none :=
    firstPatMatch_none fun p hp => h2 p (by simp [hp])
  have hw : firstPatMatch writeStart (stripAnsi line) = none :=
    firstPatMatch_none fun p hp => h2 p (by simp [hp])
  have he : firstPatMatch editStart (stripAnsi line) = none :=
    firstPatMatch_none fun p hp => h2 p (by simp [hp])
  have hb : firstPatMatch bashStart (stripAnsi line) = none :=
    firstPatMatch_none fun p hp => h2 p (by simp [hp])
  have h1' : matchCap (pat [litS "Searching", .wsPlus, litS "for", .wsPlus, litS "files"])
      (stripAnsi line) = some none := by
    rcases matchCap_noCap (p := pat [litS "Searching", .wsPlus, litS "for", .wsPlus, litS "files"])
        rfl (stripAnsi line) with hn | hs
    · rw [testPat, hn] at h1
      simp at h1
    · exact hs
  have hg : firstPatMatch globStart (stripAnsi line) = some none := by
    simp only [globStart, firstPatMatch, h1']
  simp only [detectToolStart, toolStartTable, scanTools, hr, hw, he, hb, hg, toolContent]

/-- C9 counterexample to the claim as stated: a line matching both Glob's
`Searching for files` pattern and Grep's `Searching (.+)` pattern, but also
Read's `Reading (.+)` pattern, is attributed to Read, not Glob. -/
theorem claim_c9_counterexample :
    testPat (pat [litS "Searching", .wsPlus, litS "for", .wsPlus, litS "files"])
        (stripAnsi (cs "Reading files and Searching for files")) = true ∧
    testPat (patCap [litS "Searching"])
        (stripAnsi (cs "Reading files and Searching for files")) = true ∧
    detectToolStart (cs "Reading files and Searching for files") =
      some ⟨cs "Read", cs "files and Searching for files"⟩ := by
  decide

/-- C9 witness: `Searching for files` matches no earlier tool's pattern and
is attributed to Glob with the trimmed line as content. -/
theorem claim_c9_witness :
    (testPat (pat [litS "Searching", .wsPlus, litS "for", .wsPlus, litS "files"])
        (stripAnsi (cs "Searching for files")) = true ∧
      testPat (patCap [litS "Searching"])
        (stripAnsi (cs "Searching for files")) = true) ∧
    detectToolStart (cs "Searching for files") =
      some ⟨cs "Glob", jsTrim (stripAnsi (cs "Searching for files"))⟩ :=
  ⟨⟨by decide, by decide⟩,
    claim_c9 (cs "Searching for files") (by decide) (by decide)⟩

/-- Immutable constructor attributes of a `ClaudeSession` (`id`,
`workingDirectory`, `model`, `createdAt`; the id is an opaque `Nat`, the
timestamp an opaque `Nat`). -/
structure SessParams where
  id : Nat
  workingDirectory : List Char
  model : List Char
  createdAt : Nat
deriving DecidableEq

/-- Mutable state of a `ClaudeSession`: whether `this.pty` is non-null,
`isActive`, `isProcessing`, and the line-reassembly `outputBuffer`. -/
structure Sess where
  params : SessParams
  ptyLive : Bool
  isActive : Bool
  isProcessing : Bool
  outputBuffer : List Char
deriving DecidableEq

/-- `SessionState` of `types.ts`: the snapshot type returned by
`getState`.  Its fields are exactly `id`, `workingDirectory`, `model`,
`isActive`, `createdAt`; the interface declares no exit-code field. -/
structure SessionState where
  id : Nat
  workingDirectory : List Char
  model : List Char
  isActive : Bool
  createdAt : Nat
deriving DecidableEq

/-- `ClaudeSession.getState`. -/
def getState (s : Sess) : SessionState :=
  ⟨s.params.id, s.params.workingDirectory, s.params.model, s.isActive,
    s.params.createdAt⟩

/-- Observable side effects of session operations: events emitted on the
`message`, `rawOutput` and `exit` emitter channels, and calls into the pty
handle (`write`, `resize`, `kill`). -/
inductive Eff where
  | msg (m : SMsg)
  | raw (m : SMsg)
  | exitEvt (code : Int)
  | write (data : List Char)
  | ptyResize (cols rows : Nat)
  | kill
deriving DecidableEq

/-- Session operations: a successful or failed `start()`, the pty exit
callback, a pty data callback, and the public control surface. -/
inductive SOp where
  | startOk
  | startFail
  | onExit (code : Int)
  | dataArrive (d : List Char)
  | send (input : List Char)
  | interrupt
  | confirm (yes : Bool)
  | resize (cols rows : Nat)
  | stop
deriving DecidableEq

/-- A freshly constructed session: no pty, inactive, empty buffer. -/
def sessInit (p : SessParams) : Sess := ⟨p, false, false, false, []⟩

/-- One step of `ClaudeSession`, returning the new state and the effects in
emission order, translated clause by clause from `session.ts`. -/
def sessStep (s : Sess) : SOp → Sess × List Eff
  | SOp.startOk =>
    ({ s with ptyLive := true, isActive := true },
      [Eff.msg (SMsg.sessionStart s.params.id)])
  | SOp.startFail =>
    (s, [Eff.msg (SMsg.errorMsg s.params.id
      (cs "Failed to start Claude session: Unknown error"))])
  | SOp.onExit code =>
    ({ s with isActive := false },
      [Eff.exitEvt code, Eff.msg (SMsg.sessionEnd s.params.id code)])
  | SOp.dataArrive d =>
    let r := handleOutput s.params.id s.outputBuffer d
    ({ s with outputBuffer := r.1 },
      r.2.1.map Eff.msg ++ r.2.2.map Eff.raw)
  | SOp.send input =>
    if s.ptyLive && s.isActive then
      ({ s with isProcessing := true }, [Eff.write (input ++ ['\n'])])
    else
      (s, [Eff.msg (SMsg.errorMsg s.params.id (cs "Session is not active"))])
  | SOp.interrupt =>
    if s.ptyLive && s.isActive then
      ({ s with isProcessing := false }, [Eff.write [escC]])
    else (s, [])
  | SOp.confirm yes =>
    if s.ptyLive && s.isActive then
      (s, [Eff.write (if yes then cs "y\n" else cs "n\n")])
    else (s, [])
  | SOp.resize cols rows =>
    if s.ptyLive then (s, [Eff.ptyResize cols rows]) else (s, [])
  | SOp.stop =>
    if s.ptyLive then
      ({ s with isActive := false, ptyLive := false }, [Eff.kill])
    else (s, [])

/-- Run a sequence of session operations from a fresh session. -/
def sessRun (p : SessParams) (ops : List SOp) : Sess :=
  ops.foldl (fun s op => (sessStep s op).1) (sessInit p)

lemma sessStep_params (s : Sess) (op : SOp) :
    ((sessStep s op).1).params = s.params := by
  cases op <;> simp only [sessStep] <;> split <;> rfl

lemma sessRun_params (p : SessParams) (ops : List SOp) :
    (sessRun p ops).params = p := by
  suffices h : ∀ s : Sess,
      (ops.foldl (fun s op => (sessStep s op).1) s).params = s.params by
    exact h (sessInit p)
  induction ops with
  | nil => intro s; rfl
  | cons op ops ih =>
    intro s
    rw [List.foldl_cons, ih, sessStep_params]

lemma sessStep_inv {s : Sess} (hinv : s.isActive = true → s.ptyLive = true)
    (op : SOp) :
    ((sessStep s op).1).isActive = true → ((sessStep s op).1).ptyLive = true := by
  cases op with
  | startOk => intro _; rfl
  | startFail => exact hinv
  | onExit code => intro h; simp [sessStep] at h
  | dataArrive d => exact hinv
  | send input =>
    simp only [sessStep]
    split
    · next hc => intro _; simp only [Bool.and_eq_true] at hc; exact hc.1
    · exact hinv
  | interrupt =>
    simp only [sessStep]
    split
    · next hc => intro _; simp only [Bool.and_eq_true] at hc; exact hc.1
    · exact hinv
  | confirm yes =>
    simp only [sessStep]
    split
    · exact hinv
    · exact hinv
  | resize cols rows =>
    simp only [sessStep]
    split
    · exact hinv
    · exact hinv
  | stop =>
    simp only [sessStep]
    split
    · intro h; simp at h
    · exact hinv

lemma sessRun_inv (p : SessParams) (ops : List SOp) :
    (sessRun p ops).isActive = true → (sessRun p ops).ptyLive = true := by
  suffices h : ∀ s : Sess, (s.isActive = true → s.ptyLive = true) →
      ((ops.foldl (fun s op => (sessStep s op).1) s).isActive = true →
        (ops.foldl (fun s op => (sessStep s op).1) s).ptyLive = true) by
    exact h (sessInit p) (by simp [sessInit])
  induction ops with
  | nil => intro s hs; exact hs
  | cons op ops ih =>
    intro s hs
    rw [List.foldl_cons]
    exact ih _ (sessStep_inv hs op)

/-- C6 (amended): when the child process exits with code `c`, the session
emits its `exit` event and exactly one `sessionEnd` message carrying `c`,
and every later `getState` snapshot reports `isActive = false`; but the
snapshot type has no exit-code field, so the snapshot itself carries
neither the exit code nor an `exited`-vs-`pending` distinction (amended
from the original claim, which asserted that the snapshot reports the
exited state together with the exit code). -/
theorem claim_c6 (p : SessParams) (c : Int) :
    sessStep (sessRun p [SOp.startOk]) (SOp.onExit c) =
      ({ sessRun p [SOp.startOk] with isActive := false },
        [Eff.exitEvt c, Eff.msg (SMsg.sessionEnd p.id c)]) ∧
    getState (sessRun p [SOp.startOk, SOp.onExit c]) =
      ⟨p.id, p.workingDirectory, p.model, false, p.createdAt⟩ := by
  constructor
  · rfl
  · rfl

/-- C6 counterexample to the claim as stated: sessions that exited with
codes 1 and 0 — and a session still pending — have identical `getState`
snapshots, so the snapshot cannot report the exit code or the exited
state. -/
theorem claim_c6_counterexample :
    getState (sessRun ⟨7, cs "/tmp/proj", cs "model-x", 0⟩
        [SOp.startOk, SOp.onExit 1]) =
      getState (sessRun ⟨7, cs "/tmp/proj", cs "model-x", 0⟩
        [SOp.startOk, SOp.onExit 0]) ∧
    getState (sessRun ⟨7, cs "/tmp/proj", cs "model-x", 0⟩
        [SOp.startOk, SOp.onExit 1]) =
      getState (sessRun ⟨7, cs "/tmp/proj", cs "model-x", 0⟩ []) := by
  decide

/-- C7: `send` on a session that is not active — whatever sequence of
operations produced that state — emits exactly one Error event and writes
nothing to the process; `send` on an active session writes the input
followed by a newline (and emits nothing else). -/
theorem claim_c7 (p : SessParams) (ops : List SOp) (input : List Char) :
    ((sessRun p ops).isActive = false →
      sessStep (sessRun p ops) (SOp.send input) =
        (sessRun p ops,
          [Eff.msg (SMsg.errorMsg p.id (cs "Session is not active"))])) ∧
    ((sessRun p ops).isActive = true →
      sessStep (sessRun p ops) (SOp.send input) =
        ({ sessRun p ops with isProcessing := true },
          [Eff.write (input ++ ['\n'])])) := by
  constructor
  · intro h
    simp [sessStep, h, sessRun_params]
  · intro h
    simp [sessStep, h, sessRun_inv p ops h]

/-- C7 witness: a fresh (pending) session rejects `send` with one Error
event and no write; after a successful start, `send` writes the input plus
newline. -/
theorem claim_c7_witness :
    ((sessRun ⟨3, cs "/tmp", cs "m", 0⟩ []).isActive = false ∧
      sessStep (sessRun ⟨3, cs "/tmp", cs "m", 0⟩ []) (SOp.send (cs "hi")) =
        (sessRun ⟨3, cs "/tmp", cs "m", 0⟩ [],
          [Eff.msg (SMsg.errorMsg 3 (cs "Session is not active"))])) ∧
    ((sessRun ⟨3, cs "/tmp", cs "m", 0⟩ [SOp.startOk]).isActive = true ∧
      sessStep (sessRun ⟨3, cs "/tmp", cs "m", 0⟩ [SOp.startOk])
          (SOp.send (cs "hi")) =
        ({ sessRun ⟨3, cs "/tmp", cs "m", 0⟩ [SOp.startOk] with
            isProcessing := true },
          [Eff.write (cs "hi" ++ ['\n'])])) :=
  ⟨⟨by decide, (claim_c7 ⟨3, cs "/tmp", cs "m", 0⟩ [] (cs "hi")).1 (by decide)⟩,
    ⟨by decide,
      (claim_c7 ⟨3, cs "/tmp", cs "m", 0⟩ [SOp.startOk] (cs "hi")).2 (by decide)⟩⟩

/-- C8 (amended): `resize` is a no-op exactly when the session holds no pty
handle (never started, or stopped); it is not guarded by `isActive`, so on
a session whose process exited on its own (the pty handle is kept) `resize`
still invokes the pty resize operation.  Amended from the original claim,
which asserted that `resize` is a no-op on every non-active session. -/
theorem claim_c8 (p : SessParams) (ops : List SOp) (cols rows : Nat) :
    ((sessRun p ops).ptyLive = false →
      sessStep (sessRun p ops) (SOp.resize cols rows) = (sessRun p ops, [])) ∧
    ((sessRun p ops).ptyLive = true →
      sessStep (sessRun p ops) (SOp.resize cols rows) =
        (sessRun p ops, [Eff.ptyResize cols rows])) := by
  constructor
  · intro h
    simp [sessStep, h]
  · intro h
    simp [sessStep, h]

/-- C8 counterexample to the claim as stated: after the process exits on
its own the session is no longer active, yet `resize` still calls into the
pty. -/
theorem claim_c8_counterexample :
    (sessRun ⟨5, cs "/tmp", cs "m", 0⟩ [SOp.startOk, SOp.onExit 0]).isActive
        = false ∧
    sessStep (sessRun ⟨5, cs "/tmp", cs "m", 0⟩ [SOp.startOk, SOp.onExit 0])
        (SOp.resize 80 24) =
      (sessRun ⟨5, cs "/tmp", cs "m", 0⟩ [SOp.startOk, SOp.onExit 0],
        [Eff.ptyResize 80 24]) := by
  decide

/-- C8 witness: `resize` is a no-op on a never-started session and on a
stopped session, and resizes a live pty. -/
theorem claim_c8_witness :
    ((sessRun ⟨5, cs "/tmp", cs "m", 0⟩ []).ptyLive = false ∧
      sessStep (sessRun ⟨5, cs "/tmp", cs "m", 0⟩ []) (SOp.resize 80 24) =
        (sessRun ⟨5, cs "/tmp", cs "m", 0⟩ [], [])) ∧
    ((sessRun ⟨5, cs "/tmp", cs "m", 0⟩ [SOp.startOk, SOp.stop]).ptyLive = false ∧
      sessStep (sessRun ⟨5, cs "/tmp", cs "m", 0⟩ [SOp.startOk, SOp.stop])
          (SOp.resize 80 24) =
        (sessRun ⟨5, cs "/tmp", cs "m", 0⟩ [SOp.startOk, SOp.stop], [])) ∧
    ((sessRun ⟨5, cs "/tmp", cs "m", 0⟩ [SOp.startOk]).ptyLive = true ∧
      sessStep (sessRun ⟨5, cs "/tmp", cs "m", 0⟩ [SOp.startOk])
          (SOp.resize 80 24) =
        (sessRun ⟨5, cs "/tmp", cs "m", 0⟩ [SOp.startOk],
          [Eff.ptyResize 80 24])) :=
  ⟨⟨by decide, (claim_c8 ⟨5, cs "/tmp", cs "m", 0⟩ [] 80 24).1 (by decide)⟩,
    ⟨by decide,
      (claim_c8 ⟨5, cs "/tmp", cs "m", 0⟩ [SOp.startOk, SOp.stop] 80 24).1
        (by decide)⟩,
    ⟨by decide,
      (claim_c8 ⟨5, cs "/tmp", cs "m", 0⟩ [SOp.startOk] 80 24).2 (by decide)⟩⟩

/-- Registry operations of `SessionManager`: `createSession` (with the
fresh id the uuid generator produced), the session's `exit` event (which
schedules the delayed map removal), the passage of time (firing any due
removal timers), and `stopAllSessions` (which also clears the map). -/
inductive ROp where
  | create (id : Nat)
  | procExit (id : Nat)
  | advance (dt : Nat)
  | stopAll
deriving DecidableEq

/-- Registry state: a millisecond clock and the session map in insertion
order, each session carrying the time its process exited, if it has. -/
structure RegSt where
  time : Nat
  entries : List (Nat × Option Nat)
deriving DecidableEq

/-- The grace window of `SessionManager.createSession`
(`setTimeout(..., 60000)`). -/
def graceMs : Nat := 60000

/-- One registry step.  `create` inserts the session unexited; `procExit`
records the exit time on the session (once); `advance` moves the clock and
fires every due removal timer (a timer scheduled at exit time `te` fires
once the clock reaches `te + graceMs`); `stopAll` stops every session and
clears the map immediately. -/
def regStep (st : RegSt) : ROp → RegSt
  | ROp.create id => { st with entries := st.entries ++ [(id, none)] }
  | ROp.procExit id =>
    { st with entries := st.entries.map fun e =>
        if e.1 = id && e.2.isNone then (e.1, some st.time) else e }
  | ROp.advance dt =>
    { time := st.time + dt,
      entries := st.entries.filter fun e =>
        match e.2 with
        | none => true
        | some te => decide (st.time + dt < te + graceMs) }
  | ROp.stopAll => { st with entries := [] }

/-- Run a registry trace from an empty registry at time zero. -/
def regRun (ops : List ROp) : RegSt := ops.foldl regStep ⟨0, []⟩

/-- `SessionManager.getSession`, restricted to presence (with the recorded
exit time as the session's observable exit status). -/
def regGet (st : RegSt) (id : Nat) : Option (Option Nat) :=
  st.entries.lookup id

/-- Total time advanced by a trace. -/
def sumAdv : List ROp → Nat
  | [] => 0
  | ROp.advance dt :: rest => dt + sumAdv rest
  | _ :: rest => sumAdv rest

lemma lookup_cons_self {β : Type} {es : List (Nat × β)} {k : Nat}
    {w : β} : List.lookup k ((k, w) :: es) = some w := by
  simp [List.lookup]

lemma lookup_cons_ne {β : Type} {es : List (Nat × β)} {id k : Nat}
    {w : β} (h : ¬ id = k) :
    List.lookup id ((k, w) :: es) = List.lookup id es := by
  simp [List.lookup, show (id == k) = false by simp [h]]

lemma lookup_append_of_some {β : Type} {l l2 : List (Nat × β)} {id : Nat}
    {v : β} (h : l.lookup id = some v) :
    (l ++ l2).lookup id = some v := by
  induction l with
  | nil => simp [List.lookup] at h
  | cons e es ih =>
    rcases e with ⟨k, w⟩
    by_cases hk : id = k
    · subst hk
      rw [lookup_cons_self] at h
      rw [List.cons_append, lookup_cons_self]
      exact h
    · rw [lookup_cons_ne hk] at h
      rw [List.cons_append, lookup_cons_ne hk]
      exact ih h

lemma lookup_append_of_none {β : Type} {l l2 : List (Nat × β)} {id : Nat}
    (h : l.lookup id = none) :
    (l ++ l2).lookup id = l2.lookup id := by
  induction l with
  | nil => simp
  | cons e es ih =>
    rcases e with ⟨k, w⟩
    by_cases hk : id = k
    · subst hk
      rw [lookup_cons_self] at h
      exact absurd h (by simp)
    · rw [lookup_cons_ne hk] at h
      rw [List.cons_append, lookup_cons_ne hk]
      exact ih h

lemma lookup_exit_other {l : List (Nat × Option Nat)} {id id2 t : Nat}
    {v : Option Nat} (h : l.lookup id = some v)
    (hne : id2 = id → v.isNone = false) :
    (l.map fun e => if e.1 = id2 && e.2.isNone then (e.1, some t) else e).lookup
        id = some v := by
  induction l with
  | nil => simp [List.lookup] at h
  | cons e es ih =>
    rcases e with ⟨k, w⟩
    simp only [List.map_cons]
    by_cases hk : id = k
    · subst hk
      rw [lookup_cons_self] at h
      injection h with hw
      subst hw
      by_cases h2 : id = id2
      · have hv : w.isNone = false := hne h2.symm
        have hcond : ¬ ((id, w).1 = id2 && (id, w).2.isNone) = true := by
          simp [hv]
        rw [if_neg hcond, lookup_cons_self]
      · have hcond : ¬ ((id, w).1 = id2 && (id, w).2.isNone) = true := by
          simp [h2]
        rw [if_neg hcond, lookup_cons_self]
    · rw [lookup_cons_ne hk] at h
      by_cases hcond : ((k, w).1 = id2 && (k, w).2.isNone) = true
      · rw [if_pos hcond, lookup_cons_ne hk]
        exact ih h
      · rw [if_neg hcond, lookup_cons_ne hk]
        exact ih h

lemma lookup_exit_hit {l : List (Nat × Option Nat)} {id t : Nat}
    (h : l.lookup id = some none) :
    (l.map fun e => if e.1 = id && e.2.isNone then (e.1, some t) else e).lookup
        id = some (some t) := by
  induction l with
  | nil => simp [List.lookup] at h
  | cons e es ih =>
    rcases e with ⟨k, w⟩
    simp only [List.map_cons]
    by_cases hk : id = k
    · subst hk
      rw [lookup_cons_self] at h
      injection h with hw
      subst hw
      have hcond : ((id, (none : Option Nat)).1 = id &&
          (id, (none : Option Nat)).2.isNone) = true := by simp
      rw [if_pos hcond, lookup_cons_self]
    · rw [lookup_cons_ne hk] at h
      by_cases hcond : ((k, w).1 = id && (k, w).2.isNone) = true
      · have hk2 : k = id := by
          simp only [Bool.and_eq_true, decide_eq_true_eq] at hcond
          exact hcond.1
        exact absurd hk2.symm hk
      · rw [if_neg hcond, lookup_cons_ne hk]
        exact ih h

lemma lookup_filter_of_some {β : Type} {l : List (Nat × β)} {id : Nat}
    {v : β} {pred : Nat × β → Bool}
    (h : l.lookup id = some v) (hp : pred (id, v) = true) :
    (l.filter pred).lookup id = some v := by
  induction l with
  | nil => simp [List.lookup] at h
  | cons e es ih =>
    rcases e with ⟨k, w⟩
    rw [List.filter_cons]
    by_cases hk : id = k
    · subst hk
      rw [lookup_cons_self] at h
      injection h with hw
      subst hw
      rw [if_pos hp, lookup_cons_self]
    · rw [lookup_cons_ne hk] at h
      by_cases hw : pred (k, w) = true
      · rw [if_pos hw, lookup_cons_ne hk]
        exact ih h
      · rw [if_neg hw]
        exact ih h

lemma reg_keep_none {post : List ROp} {st : RegSt} {id : Nat}
    (hlook : st.entries.lookup id = some none)
    (hstop : ROp.stopAll ∉ post)
    (hexit : ROp.procExit id ∉ post) :
    ((post.foldl regStep st).entries).lookup id = some none := by
  induction post generalizing st with
  | nil => exact hlook
  | cons op rest ih =>
    simp only [List.mem_cons, not_or] at hstop hexit
    rw [List.foldl_cons]
    refine ih ?_ hstop.2 hexit.2
    cases op with
    | create id2 => exact lookup_append_of_some hlook
    | procExit id2 =>
      refine lookup_exit_other hlook fun h2 => ?_
      exact absurd (by rw [h2] : ROp.procExit id = ROp.procExit id2) hexit.1
    | advance dt => exact lookup_filter_of_some hlook rfl
    | stopAll => exact absurd rfl hstop.1

lemma reg_keep_some {post : List ROp} {st : RegSt} {id te : Nat}
    (hlook : st.entries.lookup id = some (some te))
    (htime : st.time + sumAdv post < te + graceMs)
    (hstop : ROp.stopAll ∉ post) :
    ((post.foldl regStep st).entries).lookup id = some (some te) := by
  induction post generalizing st with
  | nil => exact hlook
  | cons op rest ih =>
    simp only [List.mem_cons, not_or] at hstop
    rw [List.foldl_cons]
    cases op with
    | create id2 =>
      refine ih (lookup_append_of_some hlook) ?_ hstop.2
      have hsum : sumAdv (ROp.create id2 :: rest) = sumAdv rest := rfl
      rw [hsum] at htime
      exact htime
    | procExit id2 =>
      refine ih (lookup_exit_other hlook fun _ => rfl) ?_ hstop.2
      have hsum : sumAdv (ROp.procExit id2 :: rest) = sumAdv rest := rfl
      rw [hsum] at htime
      exact htime
    | advance dt =>
      have hsum : sumAdv (ROp.advance dt :: rest) = dt + sumAdv rest := rfl
      rw [hsum] at htime
      refine ih ?_ ?_ hstop.2
      · refine lookup_filter_of_some hlook ?_
        have harith : st.time + dt < te + graceMs := by omega
        simpa using harith
      · show (regStep st (ROp.advance dt)).time + sumAdv rest < te + graceMs
        simp only [regStep]
        omega
    | stopAll => exact absurd rfl hstop.1

/-- C5 (amended): for every trace of registry operations that does not
contain `stopAllSessions`, a session is reachable via `getSession` from its
creation until its process exits, and remains reachable throughout the
60-second grace window after the exit; it is evicted only once the grace
window has elapsed.  Amended from the original claim, which quantified over
all registry operation sequences: `stopAllSessions` (orderly shutdown)
clears the registry immediately, without waiting for process exit or the
grace window. -/
theorem claim_c5 (pre post : List ROp) (id : Nat) :
    (regGet (regRun pre) id = none →
      ROp.stopAll ∉ post → ROp.procExit id ∉ post →
      regGet (regRun (pre ++ ROp.create id :: post)) id = some none) ∧
    (regGet (regRun pre) id = some none →
      ROp.stopAll ∉ post → sumAdv post < graceMs →
      regGet (regRun (pre ++ ROp.procExit id :: post)) id =
        some (some (regRun pre).time)) := by
  have hrun : ∀ op : ROp,
      regRun (pre ++ op :: post) = post.foldl regStep (regStep (regRun pre) op) := by
    intro op
    simp [regRun, List.foldl_append]
  constructor
  · intro h1 hstop hexit
    rw [regGet, hrun]
    refine reg_keep_none ?_ hstop hexit
    show ((regRun pre).entries ++ [(id, none)]).lookup id = some none
    rw [lookup_append_of_none h1]
    exact lookup_cons_self
  · intro h1 hstop hgrace
    rw [regGet, hrun]
    refine reg_keep_some ?_ ?_ hstop
    · exact lookup_exit_hit h1
    · show (regRun pre).time + sumAdv post < (regRun pre).time + graceMs
      omega

/-- C5 counterexample to the claim as stated: `stopAllSessions` makes a
session unreachable immediately, though its process never exited and no
grace window elapsed. -/
theorem claim_c5_counterexample :
    regGet (regRun [ROp.create 7]) 7 = some none ∧
    regGet (regRun [ROp.create 7, ROp.stopAll]) 7 = none := by
  decide

/-- C5 witness: a session stays reachable for arbitrary amounts of time
before its process exits, and through 59999 ms of the grace window after
exiting at time 5. -/
theorem claim_c5_witness :
    regGet (regRun [ROp.create 1, ROp.advance 999999]) 1 = some none ∧
    regGet (regRun ([ROp.create 1, ROp.advance 5] ++
        ROp.procExit 1 :: [ROp.advance 59999])) 1 = some (some 5) :=
  ⟨(claim_c5 [] [ROp.advance 999999] 1).1 (by decide) (by decide) (by decide),
    by
      have h := (claim_c5 [ROp.create 1, ROp.advance 5] [ROp.advance 59999] 1).2
        (by decide) (by decide) (by decide)
      simpa using h⟩

/-- `ClientMessage` of `types.ts`: the type tag as a raw string (the wire
may carry anything), the session id, and the optional `content` and
`response` fields (`none` models an absent field). -/
structure CMsg where
  mtype : List Char
  sessionId : Nat
  content : Option (List Char)
  response : Option (List Char)
deriving DecidableEq

/-- Hub state of `index.ts`: `sessionConnections` as an association list
from session id to subscriber set (in insertion order), together with the
number of times `subscribeToSession` has been called for each session.
`session.on` appends listeners, so calling `subscribeToSession` twice
registers two forwarding listeners and doubles delivery. -/
structure HubSt where
  conns : List (Nat × List Nat)
  wires : List (Nat × Nat)
deriving DecidableEq

/-- The hub before any connection: no subscriptions, no wired sessions. -/
def hubInit : HubSt := ⟨[], []⟩

/-- Number of forwarding-listener sets wired onto a session's emitter. -/
def wireCount (st : HubSt) (sid : Nat) : Nat :=
  (st.wires.lookup sid).getD 0

/-- The subscriber set of a session (empty when the map has no entry). -/
def subsOf (st : HubSt) (sid : Nat) : List Nat :=
  (st.conns.lookup sid).getD []

/-- `Set.add`: append unless already present. -/
def setAdd (l : List Nat) (ws : Nat) : List Nat :=
  if ws ∈ l then l else l ++ [ws]

/-- Update the entry of one key of an association list in place. -/
def mapUpd (l : List (Nat × List Nat)) (sid : Nat)
    (f : List Nat → List Nat) : List (Nat × List Nat) :=
  l.map fun e => if e.1 = sid then (e.1, f e.2) else e

/-- Increment a session's wiring count (first wiring inserts it). -/
def bumpWire (l : List (Nat × Nat)) (sid : Nat) : List (Nat × Nat) :=
  match l.lookup sid with
  | some _ => l.map fun e => if e.1 = sid then (e.1, e.2 + 1) else e
  | none => l ++ [(sid, 1)]

/-- Side effects of `handleClientMessage`: replies sent to the originating
socket and calls into the resolved session. -/
inductive HubEff where
  | reply (ws : Nat) (m : SMsg)
  | sessSend (content : List Char)
  | sessInterrupt
  | sessConfirm (yes : Bool)
deriving DecidableEq

/-- The registration block of `handleClientMessage` (lines 148-154 of
`index.ts`): when the subscriber map has no entry for the session, create
an empty entry and wire the hub to the session's emitter
(`subscribeToSession`); then add the sender to the entry. -/
def hubSubscribe (st : HubSt) (sid ws : Nat) : HubSt :=
  let st1 :=
    if (st.conns.lookup sid).isSome then st
    else { conns := st.conns ++ [(sid, [])], wires := bumpWire st.wires sid }
  { st1 with conns := mapUpd st1.conns sid (fun l => setAdd l ws) }

/-- The switch of `handleClientMessage`: the effects chosen by the message
type (the state is not touched by any branch).  `if (content)` and
`if (response)` are JavaScript truthiness tests, false for an absent or
empty string. -/
def dispatchEffs (ws : Nat) (m : CMsg) : List HubEff :=
  if m.mtype = cs "message" then
    match m.content with
    | some c => if c = [] then [] else [HubEff.sessSend c]
    | none => []
  else if m.mtype = cs "interrupt" then [HubEff.sessInterrupt]
  else if m.mtype = cs "confirm" then
    match m.response with
    | some r => if r = [] then [] else [HubEff.sessConfirm (r = cs "y")]
    | none => []
  else
    [HubEff.reply ws (SMsg.errorMsg m.sessionId
      (cs "Unknown message type: " ++ m.mtype))]

/-- `handleClientMessage` of `index.ts`.  `found` is whether
`sessionManager.getSession(sessionId)` resolved.  On resolution the sender
is registered for the session before the switch on the message type; an
unrecognised type is answered with an `Unknown message type` error after
the registration. -/
def handleClientMessage (found : Bool) (st : HubSt) (ws : Nat) (m : CMsg) :
    HubSt × List HubEff :=
  if !found then
    (st, [HubEff.reply ws (SMsg.errorMsg m.sessionId (cs "Session not found"))])
  else (hubSubscribe st m.sessionId ws, dispatchEffs ws m)

/-- The `close` handler of `index.ts`: remove the socket from every
subscriber set, deleting entries that become empty.  The forwarding
listeners wired by `subscribeToSession` are not removed. -/
def hubClose (st : HubSt) (ws : Nat) : HubSt :=
  let removed := st.conns.map (fun e => (e.1, e.2.filter (fun w => w ≠ ws)))
  { st with conns := removed.filter (fun e => !e.2.isEmpty) }

/-- Hub-level operations for traces. -/
inductive HOp where
  | clientMsg (found : Bool) (ws : Nat) (m : CMsg)
  | closeWs (ws : Nat)
deriving DecidableEq

/-- One hub step (state part only). -/
def hubStep (st : HubSt) : HOp → HubSt
  | HOp.clientMsg found ws m => (handleClientMessage found st ws m).1
  | HOp.closeWs ws => hubClose st ws

/-- Run a hub trace from the initial state. -/
def hubRun (ops : List HOp) : HubSt := ops.foldl hubStep hubInit

/-- How many copies of one published session event reach one socket: each
wired forwarding listener runs `broadcastToSession` once, which sends to
every (open) member of the current subscriber set. -/
def deliveries (st : HubSt) (sid ws : Nat) : Nat :=
  wireCount st sid * (if ws ∈ subsOf st sid then 1 else 0)

lemma lookup_mapUpd (l : List (Nat × List Nat)) (sid : Nat)
    (f : List Nat → List Nat) :
    (mapUpd l sid f).lookup sid = (l.lookup sid).map f := by
  induction l with
  | nil => rfl
  | cons e es ih =>
    rcases e with ⟨k, w⟩
    simp only [mapUpd, List.map_cons]
    by_cases hk : k = sid
    · subst hk
      rw [if_pos rfl, lookup_cons_self, lookup_cons_self]
      rfl
    · have hk2 : ¬ sid = k := fun h => hk h.symm
      rw [if_neg (by simpa using hk), lookup_cons_ne hk2, lookup_cons_ne hk2]
      exact ih

lemma mem_setAdd (l : List Nat) (ws : Nat) : ws ∈ setAdd l ws := by
  unfold setAdd
  by_cases h : ws ∈ l
  · rwa [if_pos h]
  · rw [if_neg h]
    simp

lemma subs_hubSubscribe (st : HubSt) (sid ws : Nat) :
    ws ∈ subsOf (hubSubscribe st sid ws) sid := by
  unfold hubSubscribe subsOf
  cases hl : st.conns.lookup sid with
  | some l =>
    simp [hl, lookup_mapUpd, mem_setAdd]
  | none =>
    simp [hl, lookup_mapUpd, lookup_append_of_none hl, lookup_cons_self,
      mem_setAdd]

/-- C10: when the session id resolves, the hub registers the sending socket
in the session's subscriber set before dispatching on the message type; in
particular a message of an unrecognised type still subscribes the sender
(it will receive subsequent session events) and is answered with exactly
one `Unknown message type` error. -/
theorem claim_c10 (st : HubSt) (ws : Nat) (m : CMsg) :
    ws ∈ subsOf (handleClientMessage true st ws m).1 m.sessionId ∧
    (m.mtype ≠ cs "message" → m.mtype ≠ cs "interrupt" →
      m.mtype ≠ cs "confirm" →
      (handleClientMessage true st ws m).2 =
        [HubEff.reply ws (SMsg.errorMsg m.sessionId
          (cs "Unknown message type: " ++ m.mtype))]) := by
  constructor
  · exact subs_hubSubscribe st m.sessionId ws
  · intro h1 h2 h3
    show dispatchEffs ws m = _
    unfold dispatchEffs
    rw [if_neg h1, if_neg h2, if_neg h3]

/-- C10 witness: a message of unknown type `bogus` to a resolvable session
subscribes the sender and is answered with the unknown-type error. -/
theorem claim_c10_witness :
    4 ∈ subsOf (handleClientMessage true hubInit 4
        ⟨cs "bogus", 9, none, none⟩).1 9 ∧
    (handleClientMessage true hubInit 4 ⟨cs "bogus", 9, none, none⟩).2 =
      [HubEff.reply 4 (SMsg.errorMsg 9
        (cs "Unknown message type: " ++ cs "bogus"))] :=
  ⟨(claim_c10 hubInit 4 ⟨cs "bogus", 9, none, none⟩).1,
    (claim_c10 hubInit 4 ⟨cs "bogus", 9, none, none⟩).2
      (by decide) (by decide) (by decide)⟩

/-- C4: the code violates the at-most-once wiring requirement.  After the
only subscriber of a session disconnects, the close handler deletes the
session's subscriber-map entry; a later subscription to the same session
therefore passes the `!sessionConnections.has(sessionId)` guard again and
calls `subscribeToSession` a second time, appending a second pair of
forwarding listeners to the session's emitter, after which one published
event is delivered twice to each subscriber.  The guard shows the intent of
wiring once per session lifetime (as the specification requires), so this
is a code bug, exhibited here on a concrete trace: subscribe connection 1,
disconnect it, subscribe connection 2 — the session is wired twice and a
single publish reaches connection 2 twice. -/
theorem claim_c4 :
    wireCount (hubRun
      [HOp.clientMsg true 1 ⟨cs "message", 9, none, none⟩,
       HOp.closeWs 1,
       HOp.clientMsg true 2 ⟨cs "message", 9, none, none⟩]) 9 = 2 ∧
    deliveries (hubRun
      [HOp.clientMsg true 1 ⟨cs "message", 9, none, none⟩,
       HOp.closeWs 1,
       HOp.clientMsg true 2 ⟨cs "message", 9, none, none⟩]) 9 2 = 2 := by
  decide
